import Mathlib

/-!
Verification of the MephistoVault session/transfer protocol (src/src/App.tsx).

This file gives a shallow embedding of the protocol core of the repository:
room-code key derivation, the XOR obfuscation layer, the sender chunk reply
(`sendChunk`), the receiver data handler (metadata / chunk / close branches of
`handleConnectReceiver`), the handshake retry interval, the self-destruct
countdown, and `resetConnection`.  Byte buffers are `List Nat` (each element a
byte value), strings are `List Char`, timers are modelled by discrete tick
functions, and the pull-based transfer loop is run with explicit fuel
(`file.length + 1` iterations always suffice, since every accepted chunk is
non-empty).

Numeric remark: the source computes `Math.round((receivedBytes / size) * 100)`
with JavaScript doubles; here the rounding of the nonnegative rational is
modelled exactly (`jsRound`, round-half-up).  The source XORs each byte of a
`Uint8Array` with `pin % 256`; for a nonnegative pin that is XOR with the
Euclidean remainder, and for a negative pin the `Uint8Array` store keeps only
the low eight bits of the two-complement pattern, which again equals the
Euclidean remainder, so the derived key is modelled as `(pin % 256).toNat`
with `Int` Euclidean `%`.
-/

namespace MephistoVault

/-- `CHUNK_SIZE = 16 * 1024` (App.tsx line 11). -/
def CHUNK_SIZE : Nat := 16 * 1024

/-- `SELF_DESTRUCT_SEC = 300` (App.tsx line 12). -/
def SELF_DESTRUCT_SEC : Nat := 300

/-- The handshake retry period in milliseconds: `setInterval(..., 500)`
(App.tsx line 631). -/
def HANDSHAKE_INTERVAL_MS : Nat := 500

/-- Characters skipped by JavaScript `parseInt` before reading digits
(the common StrWhiteSpace characters). -/
def isJsSpace (c : Char) : Bool :=
  c = ' ' || c = '\t' || c = '\n' || c = '\r' ||
  c.toNat = 11 || c.toNat = 12 || c.toNat = 160 || c.toNat = 65279

def isDecDigit (c : Char) : Bool := '0' ≤ c && c ≤ '9'

def isHexDigit (c : Char) : Bool :=
  isDecDigit c || ('a' ≤ c && c ≤ 'f') || ('A' ≤ c && c ≤ 'F')

def decDigitVal (c : Char) : Nat := c.toNat - '0'.toNat

def hexDigitVal (c : Char) : Nat :=
  if isDecDigit c then decDigitVal c
  else if 'a' ≤ c && c ≤ 'f' then c.toNat - 'a'.toNat + 10
  else c.toNat - 'A'.toNat + 10

/-- Value of the longest leading run of decimal digits; `none` when there is
no leading digit (`parseInt` then yields `NaN`). -/
def leadingDecValue (cs : List Char) : Option Nat :=
  let ds := cs.takeWhile isDecDigit
  if ds.isEmpty then none
  else some (ds.foldl (fun a c => 10 * a + decDigitVal c) 0)

/-- Value of the longest leading run of hexadecimal digits (for a `0x` input),
`none` when empty. -/
def leadingHexValue (cs : List Char) : Option Nat :=
  let ds := cs.takeWhile isHexDigit
  if ds.isEmpty then none
  else some (ds.foldl (fun a c => 16 * a + hexDigitVal c) 0)

/-- Magnitude part of JavaScript `parseInt` with unspecified radix: a `0x` or
`0X` prefix switches to base 16, otherwise base 10, reading the longest valid
digit prefix. -/
def parseIntMagnitude : List Char → Option Nat
  | '0' :: 'x' :: rest => leadingHexValue rest
  | '0' :: 'X' :: rest => leadingHexValue rest
  | cs => leadingDecValue cs

/-- JavaScript `parseInt(s)` (radix unspecified): skip leading whitespace,
optional sign, then the longest digit prefix; `none` models `NaN`. -/
def parseIntJS (cs : List Char) : Option Int :=
  match cs.dropWhile isJsSpace with
  | '-' :: rest => (parseIntMagnitude rest).map (fun n => -(n : Int))
  | '+' :: rest => (parseIntMagnitude rest).map (fun n => (n : Int))
  | rest => (parseIntMagnitude rest).map (fun n => (n : Int))

/-- JavaScript `String.prototype.split` with a single-character separator. -/
def splitOnChar (sep : Char) : List Char → List (List Char)
  | [] => [[]]
  | c :: cs =>
    let rest := splitOnChar sep cs
    if c = sep then [] :: rest
    else
      match rest with
      | r :: rs => (c :: r) :: rs
      | [] => [[c]]

/-- `code.split('#')[1] || "0"`: the segment after the first `#`; an absent
(`undefined`) or empty segment is falsy in JavaScript, so it defaults to
`"0"`. -/
def pinSegment (code : List Char) : List Char :=
  let s := (splitOnChar '#' code).getD 1 []
  if s = [] then ['0'] else s

/-- `parseInt(pinStr) || 1024`: `NaN` and `0` are falsy and default to
`1024`. -/
def pinOf (code : List Char) : Int :=
  match parseIntJS (pinSegment code) with
  | none => 1024
  | some n => if n = 0 then 1024 else n

/-- The effective single-byte key the sender XORs with
(`sendChunk`, App.tsx lines 505-509): `pin % 256`, as the low byte actually
stored by the `Uint8Array` write. -/
def deriveKeySender (code : List Char) : Nat := ((pinOf code) % 256).toNat

/-- The effective single-byte key the receiver XORs with
(`handleConnectReceiver` chunk branch, App.tsx lines 663-666); the pin
parsing there is textually identical to the sender side. -/
def deriveKeyReceiver (code : List Char) : Nat := ((pinOf code) % 256).toNat

/-- The byte-wise XOR scramble loop `scrambled[i] ^= (pin % 256)`. -/
def transform (bs : List Nat) (key : Nat) : List Nat :=
  bs.map (fun b => b ^^^ key)

/-- `file.slice(start, stop)` for `start ≤ stop ≤ file.size`. -/
def sliceBytes (file : List Nat) (start stop : Nat) : List Nat :=
  (file.take stop).drop start

/-- `Math.round(num / den)` for nonnegative integers, computed exactly on the
rational (half rounds up), with the convention `0` for `den = 0` (the source
only uses the rounded value under `receivedBytes < size`, so the `size = 0`
division is never observed). -/
def jsRound (num den : Nat) : Nat := (2 * num + den) / (2 * den)

/-- `FileMetadata` as sent in the `metadata` message. -/
structure FileMeta where
  name : List Char
  size : Nat
  mime : List Char
deriving DecidableEq, Repr

/-- The `chunk` message: offset plus (possibly absent) obfuscated payload. -/
structure ChunkMsg where
  offset : Nat
  buffer : Option (List Nat)
deriving DecidableEq, Repr

/-- Protocol messages exchanged over the data channel. -/
inductive Msg where
  | requestMetadata
  | requestChunk (offset : Nat)
  | metadata (m : FileMeta)
  | chunk (c : ChunkMsg)
  | chat (text : List Char)
deriving DecidableEq, Repr

/-- Error notices the receiver can surface via `setErrorStatus`. -/
inductive ErrMsg where
  | emptyBuffer       -- "Data parsing error: Empty buffer received."
  | zeroLengthChunk   -- "Data parsing error: Received chunk has zero length."
  | connectionClosed  -- "Connection closed unexpectedly."
deriving DecidableEq, Repr

/-- The `mode` state: `'idle' | 'send' | 'receive'`. -/
inductive Mode where
  | idle
  | send
  | receive
deriving DecidableEq, Repr

/-- The assembled download (`setCompletedFile({ blob, name, type })`), with
the blob as the concatenation of the received chunk buffers. -/
structure CompletedFile where
  name : List Char
  mime : List Char
  content : List Nat
deriving DecidableEq, Repr

/-- The receiver-relevant slice of the App component state: React state and
refs read or written by the protocol handlers. -/
@[ext] structure AppState where
  mode : Mode
  isConnected : Bool
  errorStatus : Option ErrMsg
  transferProgress : Int
  fileMeta : Option FileMeta
  receivedChunks : List (List Nat)
  receivedBytes : Nat
  completedFile : Option CompletedFile
  chatMessages : List (List Char)
  connTime : Nat
  selfDestructSec : Nat
  sdTimerActive : Bool
  handshakeActive : Bool
  peerCount : Nat
  sessionTransfers : Nat
deriving DecidableEq, Repr

/-- `resetConnection` (App.tsx lines 440-465): closes the channel, clears all
transfer state, and clears the self-destruct interval.  The handshake
interval object is not cleared here; its own guard stops it at the next tick
because the connection is no longer open. -/
def resetConnection (s : AppState) : AppState :=
  { s with
    isConnected := false
    transferProgress := -1
    fileMeta := none
    receivedChunks := []
    receivedBytes := 0
    completedFile := none
    chatMessages := []
    errorStatus := none
    connTime := 0
    selfDestructSec := 0
    peerCount := 0
    sdTimerActive := false }

/-- `finalizeDownload` (App.tsx lines 721-727): build the blob from the
ordered chunk buffers, record it, snap progress to 100, count the transfer. -/
def finalizeDownload (s : AppState) (name mime : List Char) : AppState :=
  { s with
    completedFile := some ⟨name, mime, s.receivedChunks.flatten⟩
    transferProgress := 100
    sessionTransfers := s.sessionTransfers + 1 }

/-- Receiver state right after the data channel opens in
`handleConnectReceiver`: `setTransferProgress(0)` ran at submit, the
handshake interval has been installed, nothing received yet. -/
def initialReceiverState : AppState :=
  { mode := Mode.receive
    isConnected := true
    errorStatus := none
    transferProgress := 0
    fileMeta := none
    receivedChunks := []
    receivedBytes := 0
    completedFile := none
    chatMessages := []
    connTime := 0
    selfDestructSec := 0
    sdTimerActive := false
    handshakeActive := true
    peerCount := 0
    sessionTransfers := 0 }

/-- The `metadata` branch of the receiver data handler (App.tsx lines
636-654): only if no metadata is stored yet, store it, clear the chunk buffer
and byte count, zero the progress, and request the first chunk at offset 0. -/
def metadataStep (s : AppState) (m : FileMeta) : AppState × List Msg :=
  if s.fileMeta.isNone then
    ({ s with
        fileMeta := some m
        receivedChunks := []
        receivedBytes := 0
        transferProgress := 0 },
     [Msg.requestChunk 0])
  else (s, [])

/-- The `chunk` branch of the receiver data handler (App.tsx lines 656-689):
reject an absent buffer, unscramble with the derived key, reject a
zero-length chunk, append it and advance the byte count; then, only when
metadata is known, either update progress (clamped to 99) and request the
next chunk, or snap to 100 and finalize. -/
def chunkStep (code : List Char) (s : AppState) (msg : ChunkMsg) :
    AppState × List Msg :=
  match msg.buffer with
  | none => ({ s with errorStatus := some ErrMsg.emptyBuffer }, [])
  | some payload =>
    let plain := transform payload (deriveKeyReceiver code)
    if plain.length = 0 then
      ({ s with errorStatus := some ErrMsg.zeroLengthChunk }, [])
    else
      let s1 : AppState :=
        { s with
            receivedChunks := s.receivedChunks ++ [plain]
            receivedBytes := s.receivedBytes + plain.length }
      match s1.fileMeta with
      | none => (s1, [])
      | some m =>
        if s1.receivedBytes < m.size then
          ({ s1 with
              transferProgress :=
                ((min 99 (jsRound (100 * s1.receivedBytes) m.size) : Nat) : Int) },
           [Msg.requestChunk s1.receivedBytes])
        else
          (finalizeDownload { s1 with transferProgress := 100 } m.name m.mime,
           [])

/-- One tick of the handshake retry interval (App.tsx lines 624-631): once
metadata is stored or the channel is no longer open, clear the interval and
send nothing; otherwise send a `request-metadata`. -/
def handshakeTick (s : AppState) : AppState × List Msg :=
  if !s.handshakeActive then (s, [])
  else if s.fileMeta.isSome || !s.isConnected then
    ({ s with handshakeActive := false }, [])
  else (s, [Msg.requestMetadata])

/-- `n` consecutive handshake ticks, collecting everything sent. -/
def handshakeRun : Nat → AppState → AppState × List Msg
  | 0, s => (s, [])
  | n + 1, s =>
    let t := handshakeTick s
    let r := handshakeRun n t.1
    (r.1, t.2 ++ r.2)

/-- Processing a list of incoming `metadata` messages in order. -/
def metadataRun (s : AppState) : List FileMeta → AppState × List Msg
  | [] => (s, [])
  | m :: ms =>
    let t := metadataStep s m
    let r := metadataRun t.1 ms
    (r.1, t.2 ++ r.2)

/-- The receiver close handler (App.tsx lines 700-705): surface the
unexpected-closure notice only when the transfer progress is strictly
between 0 and 100, then mark the session disconnected. -/
def closeStep (s : AppState) : AppState :=
  if s.transferProgress < 100 && 0 < s.transferProgress then
    { s with errorStatus := some ErrMsg.connectionClosed, isConnected := false }
  else { s with isConnected := false }

/-- Start of the self-destruct countdown (App.tsx lines 250-263): entered
when `transferProgress >= 100 && isConnected`. -/
def sdStart (s : AppState) : AppState :=
  { s with selfDestructSec := SELF_DESTRUCT_SEC, sdTimerActive := true }

/-- One second of the self-destruct interval (App.tsx lines 253-262): at 1 or
below, run `resetConnection` (which also clears this interval) and force the
mode back to idle; otherwise decrement. -/
def sdTick (s : AppState) : AppState :=
  if !s.sdTimerActive then s
  else if s.selfDestructSec ≤ 1 then
    { resetConnection s with mode := Mode.idle }
  else { s with selfDestructSec := s.selfDestructSec - 1 }

/-- The file held by the sender (`fileToShareRef`). -/
structure SenderFile where
  name : List Char
  mime : List Char
  bytes : List Nat
deriving DecidableEq, Repr

/-- `sendChunk` (App.tsx lines 492-523) with an explicit chunk size: slice
`[offset, min(offset + chunkSz, size))` out of the file, XOR-scramble it with
the key derived from the share code, and send it as one `chunk` message.
(The sender-side progress display update at the end of `sendChunk` is
presentation and not modelled.) -/
def sendChunkWith (chunkSz : Nat) (code : List Char) (file : List Nat)
    (offset : Nat) : ChunkMsg :=
  let stop := min (offset + chunkSz) file.length
  { offset := offset
    buffer := some (transform (sliceBytes file offset stop) (deriveKeySender code)) }

/-- `sendChunk` at the fixed `CHUNK_SIZE`. -/
def sendChunk : List Char → List Nat → Nat → ChunkMsg :=
  sendChunkWith CHUNK_SIZE

/-- The sender data handler (App.tsx lines 549-568), restricted to the
file-transfer messages: answer `request-metadata` with the metadata (when a
file is loaded) and `request-chunk` with exactly one chunk; the chat branch
only appends to the chat log and sends nothing. -/
def senderHandle (chunkSz : Nat) (code : List Char) (file : Option SenderFile)
    (msg : Msg) : List Msg :=
  match msg with
  | Msg.requestMetadata =>
    match file with
    | some f => [Msg.metadata ⟨f.name, f.bytes.length, f.mime⟩]
    | none => []
  | Msg.requestChunk o =>
    match file with
    | some f => [Msg.chunk (sendChunkWith chunkSz code f.bytes o)]
    | none => []
  | _ => []

/-- Outcome of driving one whole transfer: the final receiver state, every
requested chunk offset in order, and the `(receivedBytes, transferProgress)`
pair after each processed chunk. -/
structure RunResult where
  final : AppState
  offsets : List Nat
  trace : List (Nat × Int)
deriving DecidableEq, Repr

/-- The pull loop: the sender answers the outstanding request at offset `o`,
the receiver processes the chunk, and the loop follows the receiver's next
`request-chunk`, with explicit fuel. -/
def runAux (chunkSz : Nat) (code : List Char) (file : List Nat) :
    Nat → AppState → Nat → RunResult
  | 0, s, _ => ⟨s, [], []⟩
  | fuel + 1, s, o =>
    let msg := sendChunkWith chunkSz code file o
    let step := chunkStep code s msg
    match step.2 with
    | [Msg.requestChunk o1] =>
      let r := runAux chunkSz code file fuel step.1 o1
      ⟨r.final, o1 :: r.offsets,
        (step.1.receivedBytes, step.1.transferProgress) :: r.trace⟩
    | _ => ⟨step.1, [], [(step.1.receivedBytes, step.1.transferProgress)]⟩

/-- A full transfer over one connection with chunk size `chunkSz`: the
sender metadata reply initializes the receiver (which requests offset 0),
then the pull loop runs to completion or error.  `file.length + 1` rounds of
fuel always suffice because every accepted chunk is non-empty. -/
def runTransferWith (chunkSz : Nat) (code name mime : List Char)
    (file : List Nat) : RunResult :=
  let init := metadataStep initialReceiverState ⟨name, file.length, mime⟩
  let r := runAux chunkSz code file (file.length + 1) init.1 0
  ⟨r.final, 0 :: r.offsets, r.trace⟩

/-- A full transfer at the fixed `CHUNK_SIZE`. -/
def runTransfer : List Char → List Char → List Char → List Nat → RunResult :=
  runTransferWith CHUNK_SIZE

/-- The chunk offsets the receiver is expected to request for a file of size
`S` and chunk size `c` (all multiples of `c` below `S`). -/
def expectedOffsets (S c : Nat) : List Nat :=
  (List.range ((S + c - 1) / c)).map (fun k => k * c)

/-- Offsets requested after the chunk at offset `o` has been appended:
`o + c, o + 2c, …` strictly below `S`. -/
def laterOffsets (S c o : Nat) : List Nat :=
  (List.range ((S - o - 1) / c)).map (fun k => o + (k + 1) * c)

/-- The progress value the receiver stores once `receivedBytes = b`. -/
def progressAt (S b : Nat) : Int :=
  if b < S then ((min 99 (jsRound (100 * b) S) : Nat) : Int) else 100

/-- The `(receivedBytes, transferProgress)` trace of the loop from offset
`o` on. -/
def traceFrom (S c o : Nat) : List (Nat × Int) :=
  (List.range ((S - o - 1) / c + 1)).map
    (fun k => (min (o + (k + 1) * c) S, progressAt S (min (o + (k + 1) * c) S)))

/-- The chunk payloads (in clear) of the loop from offset `o` on. -/
def slicesFrom (file : List Nat) (c o : Nat) : List (List Nat) :=
  (List.range ((file.length - o - 1) / c + 1)).map
    (fun k => sliceBytes file (o + k * c) (min (o + k * c + c) file.length))

/-! ### Basic facts about the primitives -/

theorem xor_xor_cancel (x k : Nat) : (x ^^^ k) ^^^ k = x := by
  rw [Nat.xor_assoc, Nat.xor_self, Nat.xor_zero]

theorem transform_length (bs : List Nat) (key : Nat) :
    (transform bs key).length = bs.length := by
  simp [transform]

theorem transform_transform (bs : List Nat) (key : Nat) :
    transform (transform bs key) key = bs := by
  simp [transform, List.map_map, Function.comp_def, xor_xor_cancel]

theorem deriveKeys_eq (code : List Char) :
    deriveKeyReceiver code = deriveKeySender code := rfl

theorem deriveKey_lt (code : List Char) : deriveKeySender code < 256 := by
  unfold deriveKeySender
  have h1 : (0 : Int) ≤ pinOf code % 256 := Int.emod_nonneg _ (by norm_num)
  have h2 : pinOf code % 256 < 256 := Int.emod_lt_of_pos _ (by norm_num)
  omega

theorem sliceBytes_length (l : List Nat) (o e : Nat) (he : e ≤ l.length) :
    (sliceBytes l o e).length = e - o := by
  simp only [sliceBytes, List.length_drop, List.length_take]
  omega

theorem sliceBytes_append_drop (l : List Nat) (o e : Nat) (ho : o ≤ e)
    (he : e ≤ l.length) :
    sliceBytes l o e ++ l.drop e = l.drop o := by
  unfold sliceBytes
  conv_rhs => rw [show l = l.take e ++ l.drop e from (List.take_append_drop e l).symm]
  rw [List.drop_append_of_le_length (by simp; omega)]

theorem jsRound_mono (den : Nat) {a b : Nat} (h : a ≤ b) :
    jsRound a den ≤ jsRound b den := by
  unfold jsRound
  exact Nat.div_le_div_right (by omega)

/-! ### Recurrences for the closed-form descriptions of the loop -/

theorem laterOffsets_nil (S c o : Nat) (h : S ≤ o + c) :
    laterOffsets S c o = [] := by
  unfold laterOffsets
  rcases Nat.eq_zero_or_pos c with hc | hc
  · subst hc
    simp [Nat.div_zero]
  · rw [Nat.div_eq_of_lt (by omega)]
    simp

theorem laterOffsets_cons (S c o : Nat) (hc : 0 < c) (h : o + c < S) :
    laterOffsets S c o = (o + c) :: laterOffsets S c (o + c) := by
  unfold laterOffsets
  have h1 : (S - o - 1) / c = (S - (o + c) - 1) / c + 1 := by
    have h2 : S - o - 1 = (S - (o + c) - 1) + c := by omega
    rw [h2, Nat.add_div_right _ hc]
  rw [h1, List.range_succ_eq_map, List.map_cons, List.map_map]
  congr 1
  · ring
  · refine List.map_congr_left fun a _ => ?_
    show o + (a + 1 + 1) * c = o + c + (a + 1) * c
    ring

theorem traceFrom_single (S c o : Nat) (ho : o < S) (h : S ≤ o + c) :
    traceFrom S c o = [(S, 100)] := by
  unfold traceFrom
  rw [Nat.div_eq_of_lt (by omega)]
  have h1 : min (o + c) S = S := min_eq_right (by omega)
  simp [List.range_succ, h1, progressAt]
  intro h2
  omega

theorem traceFrom_cons (S c o : Nat) (hc : 0 < c) (h : o + c < S) :
    traceFrom S c o
      = (o + c, progressAt S (o + c)) :: traceFrom S c (o + c) := by
  unfold traceFrom
  have h1 : (S - o - 1) / c + 1 = ((S - (o + c) - 1) / c + 1) + 1 := by
    have h2 : S - o - 1 = (S - (o + c) - 1) + c := by omega
    rw [h2, Nat.add_div_right _ hc]
  rw [h1, List.range_succ_eq_map]
  have h4 : min (o + c) S = o + c := min_eq_left (by omega)
  simp only [List.map_cons, List.map_map, Function.comp_def,
    Nat.succ_eq_add_one, zero_add, one_mul, h4, List.cons.injEq]
  refine ⟨trivial, List.map_congr_left fun a _ => ?_⟩
  have h5 : o + (a + 1 + 1) * c = o + c + (a + 1) * c := by ring
  simp [h5]

theorem slicesFrom_single (file : List Nat) (c o : Nat) (ho : o < file.length)
    (h : file.length ≤ o + c) :
    slicesFrom file c o = [sliceBytes file o file.length] := by
  unfold slicesFrom
  rw [Nat.div_eq_of_lt (by omega)]
  have h1 : min (o + c) file.length = file.length := min_eq_right (by omega)
  simp [List.range_succ, h1]

theorem slicesFrom_cons (file : List Nat) (c o : Nat) (hc : 0 < c)
    (h : o + c < file.length) :
    slicesFrom file c o
      = sliceBytes file o (o + c) :: slicesFrom file c (o + c) := by
  unfold slicesFrom
  have h1 : (file.length - o - 1) / c + 1
      = ((file.length - (o + c) - 1) / c + 1) + 1 := by
    have h2 : file.length - o - 1 = (file.length - (o + c) - 1) + c := by omega
    rw [h2, Nat.add_div_right _ hc]
  rw [h1, List.range_succ_eq_map]
  have h4 : min (o + c) file.length = o + c := min_eq_left (by omega)
  simp only [List.map_cons, List.map_map, Function.comp_def,
    Nat.succ_eq_add_one, zero_mul, add_zero, h4, List.cons.injEq]
  refine ⟨trivial, List.map_congr_left fun a _ => ?_⟩
  have h5 : o + (a + 1) * c = o + c + a * c := by ring
  simp [h5]

theorem slicesFrom_flatten (c : Nat) (hc : 0 < c) (file : List Nat) :
    ∀ d o, file.length - o ≤ d → o < file.length →
      (slicesFrom file c o).flatten = file.drop o := by
  intro d
  induction d with
  | zero => intro o h1 h2; omega
  | succ d ih =>
    intro o h1 h2
    by_cases h : o + c < file.length
    · rw [slicesFrom_cons file c o hc h, List.flatten_cons,
        ih (o + c) (by omega) h,
        sliceBytes_append_drop file o (o + c) (by omega) (by omega)]
    · rw [slicesFrom_single file c o h2 (by omega)]
      simp only [List.flatten_cons, List.flatten_nil, List.append_nil]
      unfold sliceBytes
      rw [List.take_length]

/-! ### One step of the pull loop -/

theorem chunkStep_send (c : Nat) (code : List Char) (file : List Nat)
    (o : Nat) (s : AppState) (m : FileMeta) (hc : 0 < c)
    (hmt : s.fileMeta = some m) (hms : m.size = file.length)
    (ho : o < file.length) (hb : s.receivedBytes = o) :
    chunkStep code s (sendChunkWith c code file o) =
      if o + c < file.length then
        ({ s with
            receivedChunks := s.receivedChunks ++ [sliceBytes file o (o + c)]
            receivedBytes := o + c
            transferProgress :=
              ((min 99 (jsRound (100 * (o + c)) file.length) : Nat) : Int) },
         [Msg.requestChunk (o + c)])
      else
        (finalizeDownload
          { s with
              receivedChunks :=
                s.receivedChunks ++ [sliceBytes file o file.length]
              receivedBytes := file.length
              transferProgress := 100 } m.name m.mime,
         []) := by
  have hkey : transform
      (transform (sliceBytes file o (min (o + c) file.length))
        (deriveKeySender code)) (deriveKeyReceiver code)
      = sliceBytes file o (min (o + c) file.length) := by
    rw [deriveKeys_eq, transform_transform]
  have hlen : (sliceBytes file o (min (o + c) file.length)).length
      = min (o + c) file.length - o := by
    exact sliceBytes_length file o _ (min_le_right _ _)
  by_cases h : o + c < file.length
  · have hmin : min (o + c) file.length = o + c := min_eq_left (by omega)
    rw [hmin] at hkey hlen
    rw [if_pos h]
    simp only [chunkStep, sendChunkWith, hmin, hkey, hlen, hmt, hb]
    rw [if_neg (show ¬ (o + c - o = 0) by omega)]
    have harith : o + (o + c - o) = o + c := by omega
    simp only [harith]
    rw [if_pos (show o + c < m.size by omega)]
    simp [hms]
  · have hmin : min (o + c) file.length = file.length := min_eq_right (by omega)
    rw [hmin] at hkey hlen
    rw [if_neg h]
    simp only [chunkStep, sendChunkWith, hmin, hkey, hlen, hmt, hb]
    rw [if_neg (show ¬ (file.length - o = 0) by omega)]
    have harith : o + (file.length - o) = file.length := by omega
    simp only [harith]
    rw [if_neg (show ¬ file.length < m.size by omega)]

/-- Invariant induction for the pull loop: starting at offset `o < S` with
the byte count equal to `o` and metadata for the full file, the loop runs to
completion and its outcome has closed form. -/
theorem runAux_correct (c : Nat) (hc : 0 < c) (code : List Char)
    (file : List Nat) (m : FileMeta) (hms : m.size = file.length) :
    ∀ fuel o s, o < file.length → file.length - o ≤ fuel →
      s.fileMeta = some m → s.receivedBytes = o →
      runAux c code file fuel s o =
        ⟨{ s with
            receivedChunks := s.receivedChunks ++ slicesFrom file c o
            receivedBytes := file.length
            transferProgress := 100
            completedFile := some ⟨m.name, m.mime,
              (s.receivedChunks ++ slicesFrom file c o).flatten⟩
            sessionTransfers := s.sessionTransfers + 1 },
          laterOffsets file.length c o,
          traceFrom file.length c o⟩ := by
  intro fuel
  induction fuel with
  | zero => intro o s ho hf _ _; omega
  | succ fuel ih =>
    intro o s ho hf hmt hb
    have hstep := chunkStep_send c code file o s m hc hmt hms ho hb
    by_cases h : o + c < file.length
    · rw [if_pos h] at hstep
      rw [show runAux c code file (fuel + 1) s o =
          (let step := chunkStep code s (sendChunkWith c code file o)
           match step.2 with
           | [Msg.requestChunk o1] =>
             let r := runAux c code file fuel step.1 o1
             ⟨r.final, o1 :: r.offsets,
               (step.1.receivedBytes, step.1.transferProgress) :: r.trace⟩
           | _ => ⟨step.1, [],
               [(step.1.receivedBytes, step.1.transferProgress)]⟩)
        from rfl]
      rw [hstep]
      simp only []
      rw [ih (o + c) _ h (by omega) (by simp [hmt]) (by simp)]
      rw [slicesFrom_cons file c o hc h, laterOffsets_cons _ c o hc h,
        traceFrom_cons _ c o hc h]
      simp only [progressAt, if_pos h]
      simp only [RunResult.mk.injEq]
      refine ⟨?_, ?_, ?_⟩ <;> first
        | trivial
        | (ext <;> simp)
    · rw [if_neg h] at hstep
      rw [show runAux c code file (fuel + 1) s o =
          (let step := chunkStep code s (sendChunkWith c code file o)
           match step.2 with
           | [Msg.requestChunk o1] =>
             let r := runAux c code file fuel step.1 o1
             ⟨r.final, o1 :: r.offsets,
               (step.1.receivedBytes, step.1.transferProgress) :: r.trace⟩
           | _ => ⟨step.1, [],
               [(step.1.receivedBytes, step.1.transferProgress)]⟩)
        from rfl]
      rw [hstep]
      simp only []
      rw [slicesFrom_single file c o ho (by omega),
        laterOffsets_nil _ c o (by omega),
        traceFrom_single _ c o ho (by omega)]
      unfold finalizeDownload
      simp only [RunResult.mk.injEq]

/-- Closed form of a complete transfer over one connection (size at least
one byte). -/
theorem runTransfer_correct (c : Nat) (hc : 0 < c) (code name mime : List Char)
    (file : List Nat) (hS : 0 < file.length) :
    runTransferWith c code name mime file =
      ⟨{ initialReceiverState with
          fileMeta := some ⟨name, file.length, mime⟩
          receivedChunks := slicesFrom file c 0
          receivedBytes := file.length
          transferProgress := 100
          completedFile := some ⟨name, mime, (slicesFrom file c 0).flatten⟩
          sessionTransfers := 1 },
        0 :: laterOffsets file.length c 0,
        traceFrom file.length c 0⟩ := by
  unfold runTransferWith
  have hinit : metadataStep initialReceiverState ⟨name, file.length, mime⟩ =
      ({ initialReceiverState with
          fileMeta := some ⟨name, file.length, mime⟩
          receivedChunks := []
          receivedBytes := 0
          transferProgress := 0 },
       [Msg.requestChunk 0]) := by
    simp [metadataStep, initialReceiverState]
  rw [hinit]
  simp only []
  rw [runAux_correct c hc code file ⟨name, file.length, mime⟩ rfl
    (file.length + 1) 0 _ hS (by omega) (by simp) (by simp)]
  simp only [RunResult.mk.injEq]
  refine ⟨?_, trivial, trivial⟩
  ext <;> simp [initialReceiverState]

/-! ### Monotonicity and range facts about progress and the traces -/

theorem progressAt_nonneg (S b : Nat) : 0 ≤ progressAt S b := by
  unfold progressAt
  split
  · exact Int.natCast_nonneg _
  · omega

theorem progressAt_le_100 (S b : Nat) : progressAt S b ≤ 100 := by
  unfold progressAt
  split
  · have h := Nat.min_le_left 99 (jsRound (100 * b) S)
    omega
  · omega

theorem progressAt_mono (S : Nat) {b b' : Nat} (h : b ≤ b') :
    progressAt S b ≤ progressAt S b' := by
  unfold progressAt
  by_cases h2 : b' < S
  · rw [if_pos (lt_of_le_of_lt h h2), if_pos h2]
    have h3 : jsRound (100 * b) S ≤ jsRound (100 * b') S :=
      jsRound_mono S (by omega)
    have h4 : min 99 (jsRound (100 * b) S) ≤ min 99 (jsRound (100 * b') S) :=
      min_le_min (le_refl 99) h3
    omega
  · rw [if_neg h2]
    by_cases h1 : b < S
    · rw [if_pos h1]
      have h5 := Nat.min_le_left 99 (jsRound (100 * b) S)
      omega
    · rw [if_neg h1]

theorem traceFrom_mem (S c o : Nat) (e : Nat × Int) (he : e ∈ traceFrom S c o) :
    e.1 ≤ S ∧ e.2 = progressAt S e.1 := by
  unfold traceFrom at he
  simp only [List.mem_map, List.mem_range] at he
  obtain ⟨k, _, hk⟩ := he
  subst hk
  exact ⟨min_le_right _ _, rfl⟩

theorem traceFrom_chain (S c o : Nat) :
    List.Chain' (fun x y : Nat × Int => x.1 ≤ y.1 ∧ x.2 ≤ y.2)
      (traceFrom S c o) := by
  unfold traceFrom
  rw [List.chain'_map, List.chain'_range_succ]
  intro k _
  have hb : min (o + (k + 1) * c) S ≤ min (o + (k + 1 + 1) * c) S := by
    refine min_le_min ?_ (le_refl S)
    have h1 : (k + 1) * c ≤ (k + 1 + 1) * c := Nat.mul_le_mul_right c (by omega)
    omega
  exact ⟨hb, progressAt_mono S hb⟩

theorem progressAt_eq_100 (S b : Nat) (hb : b ≤ S)
    (h : progressAt S b = 100) : b = S := by
  unfold progressAt at h
  by_cases h1 : b < S
  · rw [if_pos h1] at h
    have h2 := Nat.min_le_left 99 (jsRound (100 * b) S)
    omega
  · omega

/-- Run of a transfer for the empty file: the receiver still requests offset
0, the sender answers with a zero-length chunk, and the receiver errors out
instead of completing. -/
theorem runTransfer_nil (c : Nat) (code name mime : List Char) :
    runTransferWith c code name mime [] =
      ⟨{ initialReceiverState with
          fileMeta := some ⟨name, 0, mime⟩
          errorStatus := some ErrMsg.zeroLengthChunk },
        [0], [(0, 0)]⟩ := by
  unfold runTransferWith runAux metadataStep chunkStep sendChunkWith sliceBytes
    transform
  simp only [List.length_nil, List.take_nil, List.drop_nil, List.map_nil,
    List.length_eq_zero]
  simp [initialReceiverState]

theorem offsets_formula (S c : Nat) (hc : 0 < c) (hS : 0 < S) :
    0 :: laterOffsets S c 0 = expectedOffsets S c := by
  unfold laterOffsets expectedOffsets
  have h1 : (S + c - 1) / c = (S - 0 - 1) / c + 1 := by
    have h2 : S + c - 1 = (S - 0 - 1) + c := by omega
    rw [h2, Nat.add_div_right _ hc]
  rw [h1, List.range_succ_eq_map]
  simp only [List.map_cons, List.map_map, Function.comp_def,
    Nat.succ_eq_add_one, Nat.zero_mul, List.cons.injEq]
  refine ⟨trivial, List.map_congr_left fun a _ => ?_⟩
  ring

theorem expectedOffsets_chain (S c : Nat) (hc : 0 < c) :
    List.Chain' (· < ·) (expectedOffsets S c) := by
  unfold expectedOffsets
  rw [List.chain'_map]
  cases h : (S + c - 1) / c with
  | zero => simp
  | succ n =>
    rw [List.chain'_range_succ]
    intro m _
    simp only [Nat.succ_mul]
    omega

theorem expectedOffsets_nodup (S c : Nat) (hc : 0 < c) :
    (expectedOffsets S c).Nodup := by
  unfold expectedOffsets
  refine List.Nodup.map ?_ (List.nodup_range _)
  intro a b hab
  exact Nat.eq_of_mul_eq_mul_right hc hab

theorem expectedOffsets_lt (S c : Nat) (hc : 0 < c) (hS : 0 < S) :
    ∀ o ∈ expectedOffsets S c, o < S := by
  unfold expectedOffsets
  intro o ho
  simp only [List.mem_map, List.mem_range] at ho
  obtain ⟨k, hk, rfl⟩ := ho
  have h1 : (k + 1) * c ≤ ((S + c - 1) / c) * c :=
    Nat.mul_le_mul_right c (by omega)
  have h2 : ((S + c - 1) / c) * c ≤ S + c - 1 := Nat.div_mul_le_self _ _
  have h3 : (k + 1) * c = k * c + c := by ring
  omega

/-! ### Claim theorems -/

/-- Claim C1 (corrected, positive part): for every file of size at least one
byte, the transfer completes, the receiver stores the concatenation of the
de-obfuscated chunks in request order, and that concatenation is exactly the
original byte content; no error is raised along the way.  (The claim as
stated also demanded that a zero-byte file reach Complete; the code instead
errors on the zero-length terminal chunk, see the counterexample.) -/
theorem reassembly_exact (code name mime : List Char) (file : List Nat)
    (h : file ≠ []) :
    (runTransfer code name mime file).final.completedFile
        = some ⟨name, mime, file⟩ ∧
    (runTransfer code name mime file).final.receivedChunks.flatten = file ∧
    (runTransfer code name mime file).final.transferProgress = 100 ∧
    (runTransfer code name mime file).final.errorStatus = none := by
  have hS : 0 < file.length := List.length_pos.mpr h
  have hrun := runTransfer_correct CHUNK_SIZE (by norm_num [CHUNK_SIZE])
    code name mime file hS
  rw [show runTransfer code name mime file
      = runTransferWith CHUNK_SIZE code name mime file from rfl, hrun]
  have hflat : (slicesFrom file CHUNK_SIZE 0).flatten = file := by
    rw [slicesFrom_flatten CHUNK_SIZE (by norm_num [CHUNK_SIZE]) file
      file.length 0 (by omega) hS]
    exact List.drop_zero file
  simp [hflat, initialReceiverState]

/-- Claim C1, counterexample to the zero-size clause: for `S = 0` the session
does not reach Complete; the receiver requests one chunk at offset 0,
receives the zero-length terminal chunk, and surfaces the zero-length-chunk
error with no completed file and progress still 0. -/
theorem zero_size_transfer_errors :
    (runTransfer ['k', '#', '9'] [] [] []).final.errorStatus
        = some ErrMsg.zeroLengthChunk ∧
    ¬ (runTransfer ['k', '#', '9'] [] [] []).final.transferProgress = 100 ∧
    (runTransfer ['k', '#', '9'] [] [] []).final.completedFile = none ∧
    (runTransfer ['k', '#', '9'] [] [] []).offsets = [0] := by decide

/-- Witness for `reassembly_exact` at a concrete three-byte file. -/
theorem reassembly_exact_witness :
    (runTransfer ['w', '#', '8'] ['f'] ['t'] [1, 2, 3]).final.completedFile
        = some ⟨['f'], ['t'], [1, 2, 3]⟩ ∧
    (runTransfer ['w', '#', '8'] ['f'] ['t'] [1, 2, 3]).final.receivedChunks.flatten
        = [1, 2, 3] ∧
    (runTransfer ['w', '#', '8'] ['f'] ['t'] [1, 2, 3]).final.transferProgress
        = 100 ∧
    (runTransfer ['w', '#', '8'] ['f'] ['t'] [1, 2, 3]).final.errorStatus
        = none :=
  reassembly_exact ['w', '#', '8'] ['f'] ['t'] [1, 2, 3] (by decide)

/-- Claim C3 (corrected, positive part): for every chunk size `c > 0` and
every file of size `S ≥ 1`, the offsets the receiver requests over one
transfer are exactly `0, c, 2c, …` up to (strictly below) `S`: strictly
increasing, no offset twice, no gap.  (The claim as stated also covered
`S = 0`, where the receiver in fact requests offset 0 once, see the
counterexample.) -/
theorem requested_offsets_exact (c : Nat) (code name mime : List Char)
    (file : List Nat) (hc : 0 < c) (hS : 0 < file.length) :
    (runTransferWith c code name mime file).offsets
        = expectedOffsets file.length c ∧
    List.Chain' (· < ·) (runTransferWith c code name mime file).offsets ∧
    (runTransferWith c code name mime file).offsets.Nodup ∧
    ∀ o ∈ (runTransferWith c code name mime file).offsets,
      o < file.length := by
  have hrun := runTransfer_correct c hc code name mime file hS
  rw [hrun]
  simp only []
  rw [offsets_formula file.length c hc hS]
  exact ⟨rfl, expectedOffsets_chain _ _ hc, expectedOffsets_nodup _ _ hc,
    expectedOffsets_lt _ _ hc hS⟩

/-- Claim C3, counterexample for `S = 0`: the receiver requests offset 0
even though no multiple of the chunk size lies below `S = 0` (the expected
sequence is empty). -/
theorem zero_size_requests_offset_zero :
    (runTransferWith CHUNK_SIZE ['q', '#', '2'] [] [] []).offsets = [0] ∧
    expectedOffsets 0 CHUNK_SIZE = [] := by decide

/-- Witness for `requested_offsets_exact` at chunk size 2 and a three-byte
file. -/
theorem requested_offsets_exact_witness :
    (runTransferWith 2 ['q', '#', '6'] [] [] [5, 6, 7]).offsets
        = expectedOffsets ([5, 6, 7] : List Nat).length 2 ∧
    List.Chain' (· < ·)
      (runTransferWith 2 ['q', '#', '6'] [] [] [5, 6, 7]).offsets ∧
    (runTransferWith 2 ['q', '#', '6'] [] [] [5, 6, 7]).offsets.Nodup ∧
    ∀ o ∈ (runTransferWith 2 ['q', '#', '6'] [] [] [5, 6, 7]).offsets,
      o < ([5, 6, 7] : List Nat).length :=
  requested_offsets_exact 2 ['q', '#', '6'] [] [] [5, 6, 7] (by decide)
    (by decide)

/-- Claim C6 (confirmed): over a transfer run the receiver progress,
starting from the 0 set when the transfer initializes, never decreases and
never reports 100 while the byte count is below the declared size; while
`receivedBytes < size` it equals `round(100 * receivedBytes / size)` clamped
to at most 99, and once the final chunk lands (`receivedBytes = size`,
possible only for a nonempty file) it is set to 100. -/
theorem progress_invariants (code name mime : List Char) (file : List Nat) :
    List.Chain' (fun x y : Nat × Int => x.1 ≤ y.1 ∧ x.2 ≤ y.2)
      ((0, 0) :: (runTransfer code name mime file).trace) ∧
    (∀ e ∈ (0, 0) :: (runTransfer code name mime file).trace,
      e.2 = 100 → e.1 = file.length) ∧
    (∀ e ∈ (runTransfer code name mime file).trace,
      e.1 < file.length →
        e.2 = ((min 99 (jsRound (100 * e.1) file.length) : Nat) : Int)) ∧
    (0 < file.length →
      (runTransfer code name mime file).final.transferProgress = 100 ∧
      (runTransfer code name mime file).final.receivedBytes
        = file.length) := by
  rcases eq_or_ne file [] with hfe | hfe
  · subst hfe
    rw [show runTransfer code name mime []
        = runTransferWith CHUNK_SIZE code name mime [] from rfl,
      runTransfer_nil]
    refine ⟨?_, ?_, ?_, ?_⟩ <;> simp
  · have hS : 0 < file.length := List.length_pos.mpr hfe
    have hrun := runTransfer_correct CHUNK_SIZE (by norm_num [CHUNK_SIZE])
      code name mime file hS
    rw [show runTransfer code name mime file
        = runTransferWith CHUNK_SIZE code name mime file from rfl, hrun]
    simp only []
    refine ⟨?_, ?_, ?_, ?_⟩
    · rw [List.chain'_cons']
      refine ⟨?_, traceFrom_chain _ _ _⟩
      intro y hy
      have hmem := traceFrom_mem _ _ _ y (List.mem_of_mem_head? hy)
      refine ⟨Nat.zero_le _, ?_⟩
      rw [hmem.2]
      exact progressAt_nonneg _ _
    · intro e he h100
      rcases List.mem_cons.mp he with rfl | hmem
      · simp at h100
      · have hmm := traceFrom_mem _ _ _ e hmem
        refine progressAt_eq_100 _ _ hmm.1 ?_
        rw [← hmm.2]
        exact h100
    · intro e he hlt
      have hmm := traceFrom_mem _ _ _ e he
      rw [hmm.2]
      unfold progressAt
      rw [if_pos hlt]
    · intro _
      exact ⟨by first | rfl | trivial, by first | rfl | trivial⟩

/-- Witness for `progress_invariants` at a concrete two-byte file. -/
theorem progress_invariants_witness :
    List.Chain' (fun x y : Nat × Int => x.1 ≤ y.1 ∧ x.2 ≤ y.2)
      ((0, 0) :: (runTransfer ['z', '#', '4'] [] [] [3, 4]).trace) ∧
    (∀ e ∈ (0, 0) :: (runTransfer ['z', '#', '4'] [] [] [3, 4]).trace,
      e.2 = 100 → e.1 = ([3, 4] : List Nat).length) ∧
    (∀ e ∈ (runTransfer ['z', '#', '4'] [] [] [3, 4]).trace,
      e.1 < ([3, 4] : List Nat).length →
        e.2 = ((min 99 (jsRound (100 * e.1) ([3, 4] : List Nat).length) : Nat)
          : Int)) ∧
    (0 < ([3, 4] : List Nat).length →
      (runTransfer ['z', '#', '4'] [] [] [3, 4]).final.transferProgress
        = 100 ∧
      (runTransfer ['z', '#', '4'] [] [] [3, 4]).final.receivedBytes
        = ([3, 4] : List Nat).length) :=
  progress_invariants ['z', '#', '4'] [] [] [3, 4]

/-- Claim C2 (confirmed): for a request at offset `o` with `0 ≤ o ≤ size`,
the sender replies with exactly one chunk message; its payload is the byte
range `[o, min(o + CHUNK_SIZE, size))` of the shared file XORed with the
session key, so its length is `min(CHUNK_SIZE, size - o)`; `CHUNK_SIZE` is
fixed at 16 KiB. -/
theorem send_chunk_exact (code : List Char) (f : SenderFile) (o : Nat)
    (h : o ≤ f.bytes.length) :
    CHUNK_SIZE = 16 * 1024 ∧
    senderHandle CHUNK_SIZE code (some f) (Msg.requestChunk o)
        = [Msg.chunk (sendChunk code f.bytes o)] ∧
    (sendChunk code f.bytes o).offset = o ∧
    ∃ p, (sendChunk code f.bytes o).buffer = some p ∧
      p.length = min CHUNK_SIZE (f.bytes.length - o) ∧
      ∀ i < p.length,
        p[i]? = (f.bytes[o + i]?).map
          (fun b => b ^^^ deriveKeySender code) := by
  refine ⟨rfl, rfl, rfl, ?_⟩
  refine ⟨transform
    (sliceBytes f.bytes o (min (o + CHUNK_SIZE) f.bytes.length))
    (deriveKeySender code), rfl, ?_, ?_⟩
  · rw [transform_length, sliceBytes_length _ _ _ (min_le_right _ _)]
    omega
  · intro i hi
    rw [transform_length, sliceBytes_length _ _ _ (min_le_right _ _)] at hi
    unfold transform sliceBytes
    rw [List.getElem?_map, List.getElem?_drop, List.getElem?_take,
      if_pos (by omega)]

/-- Witness for `send_chunk_exact`: a three-byte file, request at offset 1. -/
theorem send_chunk_exact_witness :
    CHUNK_SIZE = 16 * 1024 ∧
    senderHandle CHUNK_SIZE ['m', '#', '5'] (some ⟨['a'], ['t'], [1, 2, 3]⟩)
        (Msg.requestChunk 1)
      = [Msg.chunk (sendChunk ['m', '#', '5'] [1, 2, 3] 1)] ∧
    (sendChunk ['m', '#', '5'] [1, 2, 3] 1).offset = 1 ∧
    ∃ p, (sendChunk ['m', '#', '5'] [1, 2, 3] 1).buffer = some p ∧
      p.length = min CHUNK_SIZE (([1, 2, 3] : List Nat).length - 1) ∧
      ∀ i < p.length,
        p[i]? = (([1, 2, 3] : List Nat)[1 + i]?).map
          (fun b => b ^^^ deriveKeySender ['m', '#', '5']) :=
  send_chunk_exact ['m', '#', '5'] ⟨['a'], ['t'], [1, 2, 3]⟩ 1 (by decide)

/-- Claim C4 (confirmed): the XOR obfuscation is an involution for every
byte sequence and every key in `[0, 255]`, and for every room code the
sender-side and receiver-side key derivations agree on an integer in
`[0, 255]`. -/
theorem obfuscation_involution_and_key_agreement (b : List Nat) (k : Nat)
    (_hk : k ≤ 255) (code : List Char) :
    transform (transform b k) k = b ∧
    deriveKeySender code = deriveKeyReceiver code ∧
    deriveKeyReceiver code ≤ 255 := by
  refine ⟨transform_transform b k, rfl, ?_⟩
  have h1 := deriveKey_lt code
  have h2 : deriveKeyReceiver code = deriveKeySender code := rfl
  omega

/-- Witness for `obfuscation_involution_and_key_agreement`. -/
theorem obfuscation_involution_witness :
    transform (transform [0, 7, 255] 9) 9 = [0, 7, 255] ∧
    deriveKeySender ['a', '#', '7', '7'] = deriveKeyReceiver ['a', '#', '7', '7'] ∧
    deriveKeyReceiver ['a', '#', '7', '7'] ≤ 255 :=
  obfuscation_involution_and_key_agreement [0, 7, 255] 9 (by decide)
    ['a', '#', '7', '7']

/-- Claim C9 (confirmed): key derivation parses the segment after the first
`#` and reduces it modulo 256, so the key is in `[0, 255]`; a missing
segment (or an empty one) and a non-numeric segment both default the source
value to 1024, whose reduction is key 0. -/
theorem derive_key_parse_and_default (code : List Char) :
    deriveKeySender code < 256 ∧
    ((splitOnChar '#' code).getD 1 [] = [] → deriveKeySender code = 0) ∧
    (parseIntJS (pinSegment code) = none → deriveKeySender code = 0) ∧
    ∀ n : Int, 0 < n → parseIntJS (pinSegment code) = some n →
      deriveKeySender code = (n % 256).toNat := by
  refine ⟨deriveKey_lt code, ?_, ?_, ?_⟩
  · intro hempty
    have hseg : pinSegment code = ['0'] := by
      simp only [pinSegment]
      rw [if_pos hempty]
    unfold deriveKeySender pinOf
    rw [hseg]
    decide
  · intro hnone
    unfold deriveKeySender pinOf
    rw [hnone]
    decide
  · intro n hn hsome
    unfold deriveKeySender pinOf
    rw [hsome]
    show ((if n = 0 then 1024 else n) % 256).toNat = (n % 256).toNat
    rw [if_neg (show ¬ n = 0 by omega)]

/-- Witness for `derive_key_parse_and_default`: a code without `#` derives
key 0; a numeric pin 1234 reduces to 210. -/
theorem derive_key_witness :
    deriveKeySender ['a', 'b'] < 256 ∧
    deriveKeySender ['a', 'b'] = 0 ∧
    deriveKeySender ['a', '#', '1', '2', '3', '4'] = ((1234 : Int) % 256).toNat :=
  ⟨(derive_key_parse_and_default ['a', 'b']).1,
   (derive_key_parse_and_default ['a', 'b']).2.1 (by decide),
   (derive_key_parse_and_default ['a', '#', '1', '2', '3', '4']).2.2.2 1234
     (by decide) (by decide)⟩

/-- Claim C10 (corrected): a non-empty chunk arriving before any metadata is
de-obfuscated, appended to the chunk buffer and counted into the byte total,
with no error, no notice, no next request and no completion; but a later
(first) metadata message clears the chunk buffer and byte count, so those
bytes are discarded rather than counted into the transfer it starts. -/
theorem chunk_before_metadata (code : List Char) (s : AppState) (o : Nat)
    (p : List Nat) (hmeta : s.fileMeta = none) (hp : p ≠ []) :
    chunkStep code s ⟨o, some p⟩ =
      ({ s with
          receivedChunks :=
            s.receivedChunks ++ [transform p (deriveKeyReceiver code)]
          receivedBytes := s.receivedBytes + p.length }, []) ∧
    ∀ m : FileMeta,
      (metadataStep (chunkStep code s ⟨o, some p⟩).1 m).1.receivedChunks
        = [] ∧
      (metadataStep (chunkStep code s ⟨o, some p⟩).1 m).1.receivedBytes
        = 0 := by
  have hne : ¬ (transform p (deriveKeyReceiver code)).length = 0 := by
    rw [transform_length]
    exact fun hz => hp (List.length_eq_zero.mp hz)
  have hstep : chunkStep code s ⟨o, some p⟩ =
      ({ s with
          receivedChunks :=
            s.receivedChunks ++ [transform p (deriveKeyReceiver code)]
          receivedBytes := s.receivedBytes + p.length }, []) := by
    simp only [chunkStep]
    rw [if_neg hne]
    simp only [hmeta, transform_length]
  refine ⟨hstep, fun m => ?_⟩
  rw [hstep]
  simp [metadataStep, hmeta]

/-- Claim C10, counterexample to the final clause: a one-byte chunk received
before metadata is counted (byte total 1 with no error), but the next
metadata message resets the byte count to 0 and the buffer to empty, so the
early bytes are not part of the transfer it starts. -/
theorem early_chunk_discarded_by_metadata :
    ((chunkStep ['x', '#', '7'] initialReceiverState ⟨0, some [5]⟩).1).receivedBytes
        = 1 ∧
    ((chunkStep ['x', '#', '7'] initialReceiverState ⟨0, some [5]⟩).1).errorStatus
        = none ∧
    ((metadataStep (chunkStep ['x', '#', '7'] initialReceiverState
        ⟨0, some [5]⟩).1 ⟨[], 3, []⟩).1).receivedBytes = 0 ∧
    ((metadataStep (chunkStep ['x', '#', '7'] initialReceiverState
        ⟨0, some [5]⟩).1 ⟨[], 3, []⟩).1).receivedChunks
        = ([] : List (List Nat)) := by
  decide

/-- Witness for `chunk_before_metadata` at a concrete one-byte chunk. -/
theorem chunk_before_metadata_witness :
    chunkStep ['x', '#', '3'] initialReceiverState ⟨0, some [9]⟩ =
      ({ initialReceiverState with
          receivedChunks := initialReceiverState.receivedChunks
            ++ [transform [9] (deriveKeyReceiver ['x', '#', '3'])]
          receivedBytes := initialReceiverState.receivedBytes
            + ([9] : List Nat).length }, []) ∧
    ∀ m : FileMeta,
      (metadataStep (chunkStep ['x', '#', '3'] initialReceiverState
          ⟨0, some [9]⟩).1 m).1.receivedChunks = [] ∧
      (metadataStep (chunkStep ['x', '#', '3'] initialReceiverState
          ⟨0, some [9]⟩).1 m).1.receivedBytes = 0 :=
  chunk_before_metadata ['x', '#', '3'] initialReceiverState 0 [9] rfl
    (by decide)

/-! ### Handshake retry and metadata idempotence (C5) -/

theorem handshakeTick_preserves (s : AppState) :
    (handshakeTick s).1.fileMeta = s.fileMeta ∧
    (handshakeTick s).1.isConnected = s.isConnected := by
  unfold handshakeTick
  split
  · exact ⟨rfl, rfl⟩
  · split
    · exact ⟨rfl, rfl⟩
    · exact ⟨rfl, rfl⟩

theorem handshakeRun_silent (n : Nat) :
    ∀ s : AppState, s.fileMeta.isSome = true ∨ s.isConnected = false →
      (handshakeRun n s).2 = [] := by
  induction n with
  | zero => intro s _; rfl
  | succ n ih =>
    intro s h
    have htick : (handshakeTick s).2 = [] := by
      by_cases ha : s.handshakeActive
      · have hg : (s.fileMeta.isSome || !s.isConnected) = true := by
          rcases h with h | h
          · simp [h]
          · simp [h]
        simp [handshakeTick, ha, hg]
      · simp [handshakeTick, ha]
    have hpres := handshakeTick_preserves s
    have hnext : (handshakeTick s).1.fileMeta.isSome = true ∨
        (handshakeTick s).1.isConnected = false := by
      rw [hpres.1, hpres.2]
      exact h
    show ((handshakeRun n (handshakeTick s).1).1,
      (handshakeTick s).2 ++ (handshakeRun n (handshakeTick s).1).2).2 = []
    rw [htick, ih _ hnext]
    rfl

theorem handshakeRun_awaiting (n : Nat) :
    ∀ s : AppState, s.handshakeActive = true → s.fileMeta = none →
      s.isConnected = true →
      handshakeRun n s = (s, List.replicate n Msg.requestMetadata) := by
  induction n with
  | zero => intro s _ _ _; rfl
  | succ n ih =>
    intro s ha hm hc
    have htick : handshakeTick s = (s, [Msg.requestMetadata]) := by
      simp [handshakeTick, ha, hm, hc]
    show ((handshakeRun n (handshakeTick s).1).1,
        (handshakeTick s).2 ++ (handshakeRun n (handshakeTick s).1).2)
      = (s, List.replicate (n + 1) Msg.requestMetadata)
    rw [htick]
    rw [ih s ha hm hc]
    simp [List.replicate_succ]

theorem metadataStep_ignored (s : AppState) (m : FileMeta)
    (h : s.fileMeta.isSome = true) : metadataStep s m = (s, []) := by
  obtain ⟨m0, hm0⟩ := Option.isSome_iff_exists.mp h
  simp [metadataStep, hm0]

theorem metadataRun_ignored (ms : List FileMeta) :
    ∀ s : AppState, s.fileMeta.isSome = true → metadataRun s ms = (s, []) := by
  induction ms with
  | nil => intro s _; rfl
  | cons m ms ih =>
    intro s h
    show ((metadataRun (metadataStep s m).1 ms).1,
        (metadataStep s m).2 ++ (metadataRun (metadataStep s m).1 ms).2)
      = (s, [])
    rw [metadataStep_ignored s m h]
    rw [ih s h]
    rfl

/-- Claim C5 (confirmed): while no metadata is stored and the channel is
open, every handshake tick sends one request-metadata message and changes
nothing; once metadata is stored or the channel closed, no tick ever sends
one again; the first metadata message initializes the transfer and requests
chunk 0, and any later metadata message leaves state untouched and sends
nothing, so the transfer is initialized exactly once.  The tick period is
the 500 ms interval constant. -/
theorem handshake_retry_and_first_metadata
    (s₁ : AppState) (h₁ : s₁.handshakeActive = true)
    (h₂ : s₁.fileMeta = none) (h₃ : s₁.isConnected = true)
    (s₂ : AppState) (h₄ : s₂.fileMeta.isSome = true ∨ s₂.isConnected = false)
    (s₃ : AppState) (m₀ : FileMeta) (h₅ : s₃.fileMeta = some m₀)
    (s₄ : AppState) (h₆ : s₄.fileMeta = none)
    (m : FileMeta) (ms : List FileMeta) (n : Nat) :
    HANDSHAKE_INTERVAL_MS = 500 ∧
    handshakeRun n s₁ = (s₁, List.replicate n Msg.requestMetadata) ∧
    (handshakeRun n s₂).2 = [] ∧
    metadataStep s₃ m = (s₃, []) ∧
    (metadataRun s₄ (m :: ms)).1 = (metadataStep s₄ m).1 ∧
    (metadataRun s₄ (m :: ms)).2 = [Msg.requestChunk 0] ∧
    (metadataStep s₄ m).1.fileMeta = some m ∧
    (metadataStep s₄ m).1.receivedChunks = [] ∧
    (metadataStep s₄ m).1.receivedBytes = 0 := by
  have hmfirst : metadataStep s₄ m =
      ({ s₄ with
          fileMeta := some m
          receivedChunks := []
          receivedBytes := 0
          transferProgress := 0 }, [Msg.requestChunk 0]) := by
    simp [metadataStep, h₆]
  have hsome : (metadataStep s₄ m).1.fileMeta.isSome = true := by
    rw [hmfirst]
    rfl
  refine ⟨rfl, handshakeRun_awaiting n s₁ h₁ h₂ h₃,
    handshakeRun_silent n s₂ h₄,
    metadataStep_ignored s₃ m (by rw [h₅]; rfl), ?_, ?_, ?_, ?_, ?_⟩
  · show (metadataRun (metadataStep s₄ m).1 ms).1 = (metadataStep s₄ m).1
    rw [metadataRun_ignored ms (metadataStep s₄ m).1 hsome]
  · show ((metadataStep s₄ m).2
        ++ (metadataRun (metadataStep s₄ m).1 ms).2) = [Msg.requestChunk 0]
    rw [metadataRun_ignored ms (metadataStep s₄ m).1 hsome, hmfirst]
    rfl
  · rw [hmfirst]
  · rw [hmfirst]
  · rw [hmfirst]

/-- Witness for `handshake_retry_and_first_metadata` at concrete states. -/
theorem handshake_retry_witness :
    handshakeRun 3 initialReceiverState
      = (initialReceiverState, List.replicate 3 Msg.requestMetadata) ∧
    (handshakeRun 3 { initialReceiverState with isConnected := false }).2
      = [] ∧
    (metadataRun initialReceiverState
      [⟨[], 5, []⟩, ⟨[], 7, []⟩, ⟨[], 9, []⟩]).2 = [Msg.requestChunk 0] :=
  let T := handshake_retry_and_first_metadata
    initialReceiverState rfl rfl rfl
    { initialReceiverState with isConnected := false } (Or.inr rfl)
    { initialReceiverState with fileMeta := some ⟨[], 5, []⟩ } ⟨[], 5, []⟩ rfl
    initialReceiverState rfl
    ⟨[], 5, []⟩ [⟨[], 7, []⟩, ⟨[], 9, []⟩] 3
  ⟨T.2.1, T.2.2.1, T.2.2.2.2.2.1⟩

/-! ### Self-destruct countdown (C7) -/

theorem sdTick_active (s : AppState) (ha : s.sdTimerActive = true) :
    sdTick s = if s.selfDestructSec ≤ 1
      then { resetConnection s with mode := Mode.idle }
      else { s with selfDestructSec := s.selfDestructSec - 1 } := by
  simp [sdTick, ha]

theorem sdTick_inactive (s : AppState) (ha : s.sdTimerActive = false) :
    sdTick s = s := by
  simp [sdTick, ha]

theorem sdTick_countdown (s0 : AppState) :
    ∀ n, n < 300 →
      sdTick^[n] (sdStart s0)
        = { sdStart s0 with selfDestructSec := 300 - n } := by
  intro n
  induction n with
  | zero =>
    intro _
    rfl
  | succ n ih =>
    intro hlt
    rw [Function.iterate_succ_apply', ih (by omega),
      sdTick_active _ (by rfl)]
    rw [show ({ sdStart s0 with selfDestructSec := 300 - n }
        : AppState).selfDestructSec = 300 - n from rfl]
    rw [if_neg (by omega)]
    have harith : 300 - n - 1 = 300 - (n + 1) := by omega
    rw [harith]

theorem sdTick_full (s0 : AppState) :
    sdTick^[300] (sdStart s0)
      = { resetConnection s0 with mode := Mode.idle } := by
  have h299 := sdTick_countdown s0 299 (by omega)
  rw [show (300 : Nat) = 299 + 1 from rfl, Function.iterate_succ_apply',
    h299, sdTick_active _ (by rfl)]
  rw [if_pos (show ({ sdStart s0 with selfDestructSec := 300 - 299 }
      : AppState).selfDestructSec ≤ 1 by norm_num)]
  ext <;> simp [resetConnection, sdStart]

theorem sdTick_after_reset (s0 : AppState) :
    ∀ k, sdTick^[k] (resetConnection s0) = resetConnection s0 := by
  intro k
  induction k with
  | zero => rfl
  | succ k ih =>
    rw [Function.iterate_succ_apply', ih,
      sdTick_inactive _ (by rfl)]

/-- Claim C7 (confirmed): once the transfer is Complete (progress 100) while
connected, the countdown starts at 300 seconds; for every `n < 300` ticks
nothing but the counter changes, and after exactly 300 ticks the session is
forced through a full `resetConnection` back to idle with the chunk buffer,
byte count, metadata and completed file all cleared; a manual reset cancels
the timer, so every later tick leaves the state (its mode in particular)
unchanged. -/
theorem self_destruct_exact (s : AppState) (_h₁ : 100 ≤ s.transferProgress)
    (_h₂ : s.isConnected = true) (n : Nat) (hn : n < 300) :
    SELF_DESTRUCT_SEC = 300 ∧
    (sdStart s).selfDestructSec = 300 ∧
    sdTick^[n] (sdStart s) = { sdStart s with selfDestructSec := 300 - n } ∧
    sdTick^[300] (sdStart s) = { resetConnection s with mode := Mode.idle } ∧
    (sdTick^[300] (sdStart s)).receivedChunks = [] ∧
    (sdTick^[300] (sdStart s)).receivedBytes = 0 ∧
    (sdTick^[300] (sdStart s)).fileMeta = none ∧
    (sdTick^[300] (sdStart s)).completedFile = none ∧
    (∀ k, sdTick^[k] (resetConnection (sdStart s))
        = resetConnection (sdStart s)) ∧
    (∀ k, (sdTick^[k] (resetConnection (sdStart s))).mode = s.mode) := by
  refine ⟨rfl, rfl, sdTick_countdown s n hn, sdTick_full s, ?_, ?_, ?_, ?_,
    sdTick_after_reset (sdStart s), ?_⟩
  · rw [sdTick_full s]
    rfl
  · rw [sdTick_full s]
    rfl
  · rw [sdTick_full s]
    rfl
  · rw [sdTick_full s]
    rfl
  · intro k
    rw [sdTick_after_reset (sdStart s) k]
    rfl

/-- Witness for `self_destruct_exact`: a completed, connected session. -/
theorem self_destruct_witness :
    sdTick^[5] (sdStart { initialReceiverState with transferProgress := 100 })
      = { sdStart { initialReceiverState with transferProgress := 100 } with
          selfDestructSec := 300 - 5 } ∧
    sdTick^[300]
        (sdStart { initialReceiverState with transferProgress := 100 })
      = { resetConnection
            { initialReceiverState with transferProgress := 100 } with
          mode := Mode.idle } :=
  let T := self_destruct_exact
    { initialReceiverState with transferProgress := 100 }
    (by decide) rfl 5 (by omega)
  ⟨T.2.2.1, T.2.2.2.1⟩

/-! ### The close handler and the mid-transfer disconnect notice (C8) -/

/-- After the first chunk of a file larger than `200 * CHUNK_SIZE` bytes the
byte count is strictly between 0 and the size, the rounded progress is still
0, and a channel close at that point surfaces no error notice. -/
theorem closeStep_after_first_chunk (code : List Char) (file : List Nat)
    (hbig : 200 * CHUNK_SIZE < file.length) :
    0 < ((chunkStep code
        (metadataStep initialReceiverState ⟨[], file.length, []⟩).1
        (sendChunk code file 0)).1).receivedBytes ∧
    ((chunkStep code
        (metadataStep initialReceiverState ⟨[], file.length, []⟩).1
        (sendChunk code file 0)).1).receivedBytes < file.length ∧
    (closeStep ((chunkStep code
        (metadataStep initialReceiverState ⟨[], file.length, []⟩).1
        (sendChunk code file 0)).1)).errorStatus = none ∧
    (closeStep ((chunkStep code
        (metadataStep initialReceiverState ⟨[], file.length, []⟩).1
        (sendChunk code file 0)).1)).isConnected = false := by
  have hck : CHUNK_SIZE = 16384 := rfl
  have hm : metadataStep initialReceiverState ⟨[], file.length, []⟩ =
      ({ initialReceiverState with
          fileMeta := some ⟨[], file.length, []⟩
          receivedChunks := []
          receivedBytes := 0
          transferProgress := 0 }, [Msg.requestChunk 0]) := by
    simp [metadataStep, initialReceiverState]
  have hstep := chunkStep_send CHUNK_SIZE code file 0
    (metadataStep initialReceiverState ⟨[], file.length, []⟩).1
    ⟨[], file.length, []⟩
    (by omega) (by rw [hm]) rfl (by omega) (by rw [hm])
  rw [if_pos (by omega)] at hstep
  have hprog : ((min 99 (jsRound (100 * (0 + CHUNK_SIZE)) file.length)
      : Nat) : Int) = 0 := by
    have hz : jsRound (100 * (0 + CHUNK_SIZE)) file.length = 0 := by
      unfold jsRound
      apply Nat.div_eq_of_lt
      omega
    rw [hz]
    rfl
  rw [show sendChunk code file 0
      = sendChunkWith CHUNK_SIZE code file 0 from rfl]
  rw [hstep]
  have hclose : (closeStep ({ (metadataStep initialReceiverState
        ⟨[], file.length, []⟩).1 with
      receivedChunks := (metadataStep initialReceiverState
        ⟨[], file.length, []⟩).1.receivedChunks
          ++ [sliceBytes file 0 (0 + CHUNK_SIZE)]
      receivedBytes := 0 + CHUNK_SIZE
      transferProgress := ((min 99 (jsRound (100 * (0 + CHUNK_SIZE))
        file.length) : Nat) : Int) } : AppState)).errorStatus
      = none ∧
      (closeStep ({ (metadataStep initialReceiverState
        ⟨[], file.length, []⟩).1 with
      receivedChunks := (metadataStep initialReceiverState
        ⟨[], file.length, []⟩).1.receivedChunks
          ++ [sliceBytes file 0 (0 + CHUNK_SIZE)]
      receivedBytes := 0 + CHUNK_SIZE
      transferProgress := ((min 99 (jsRound (100 * (0 + CHUNK_SIZE))
        file.length) : Nat) : Int) } : AppState)).isConnected = false := by
    unfold closeStep
    rw [hprog, hm]
    norm_num [initialReceiverState]
  refine ⟨?_, ?_, hclose.1, hclose.2⟩
  · show (0 : Nat) < 0 + CHUNK_SIZE
    omega
  · show 0 + CHUNK_SIZE < file.length
    omega

/-- Claim C8 (code bug): the close handler guards the unexpected-closure
notice on the transfer progress percentage, not on the byte count.  Failing
input: a fresh receive session for a 10000000-byte file; the channel closes
after the first 16 KiB chunk, so `0 < receivedBytes < size`, yet the rounded
progress is 0 and `closeStep` surfaces no notice at all — the claim says an
explicit unexpected-closure error is reported. -/
theorem close_mid_transfer_without_notice :
    0 < ((chunkStep ['a', '#', '1', '2', '3', '4']
        (metadataStep initialReceiverState
          ⟨[], (List.replicate 10000000 (0 : Nat)).length, []⟩).1
        (sendChunk ['a', '#', '1', '2', '3', '4']
          (List.replicate 10000000 (0 : Nat)) 0)).1).receivedBytes ∧
    ((chunkStep ['a', '#', '1', '2', '3', '4']
        (metadataStep initialReceiverState
          ⟨[], (List.replicate 10000000 (0 : Nat)).length, []⟩).1
        (sendChunk ['a', '#', '1', '2', '3', '4']
          (List.replicate 10000000 (0 : Nat)) 0)).1).receivedBytes
      < (List.replicate 10000000 (0 : Nat)).length ∧
    (closeStep ((chunkStep ['a', '#', '1', '2', '3', '4']
        (metadataStep initialReceiverState
          ⟨[], (List.replicate 10000000 (0 : Nat)).length, []⟩).1
        (sendChunk ['a', '#', '1', '2', '3', '4']
          (List.replicate 10000000 (0 : Nat)) 0)).1)).errorStatus = none ∧
    (closeStep ((chunkStep ['a', '#', '1', '2', '3', '4']
        (metadataStep initialReceiverState
          ⟨[], (List.replicate 10000000 (0 : Nat)).length, []⟩).1
        (sendChunk ['a', '#', '1', '2', '3', '4']
          (List.replicate 10000000 (0 : Nat)) 0)).1)).isConnected
      = false :=
  closeStep_after_first_chunk ['a', '#', '1', '2', '3', '4']
    (List.replicate 10000000 (0 : Nat))
    (List.length_replicate 10000000 (0 : Nat) ▸ by norm_num [CHUNK_SIZE])

end MephistoVault
